import Mathlib

/-!
Shallow embedding of the go-adb device client (`device.go`, `device_extra.go`).

Go strings are modelled as `List Char` (the functions below only slice at
ASCII byte positions, where byte indices and character indices agree, so a
character-level model is faithful).  Network I/O is abstracted: each operation
receives the byte stream the ADB server would deliver (shell output read until
peer close, or an attribute response) as an explicit parameter.  The structured
errors from the repository's `internal/errors` package (not under `src/`) are
modelled from the spec's closed error-kind enumeration, keeping the exact
message strings constructed in `device.go`.
-/

/-- Go string, modelled as a list of characters. -/
abbrev Str := List Char

/-- Convert a Lean string literal to the `Str` model. -/
def strL (s : String) : Str := s.toList

/-- Modelled from the spec: the closed error-kind enumeration of the
`internal/errors` package (AssertionError, ParseError, DeviceNotFound, ...),
which is not under `src/`.  `genericError` stands for an untagged
`fmt.Errorf` error; `shellExit` is `ShellExitError` from `device.go`. -/
inductive GoErr where
  | assertionError (msg : Str)
  | parseError (msg : Str)
  | deviceNotFound (msg : Str)
  | genericError (msg : Str)
  | shellExit (command : Str) (exitCode : Int)
deriving DecidableEq

instance {ε α : Type} [DecidableEq ε] [DecidableEq α] : DecidableEq (Except ε α) := fun x y =>
  match x, y with
  | .ok a, .ok b => if h : a = b then isTrue (by simp [h]) else isFalse (by simp [h])
  | .ok _, .error _ => isFalse (by simp)
  | .error _, .ok _ => isFalse (by simp)
  | .error e, .error f => if h : e = f then isTrue (by simp [h]) else isFalse (by simp [h])

/-- Whitespace characters: the ASCII whitespace recognised by Go's
`unicode.IsSpace` (tab, newline, vertical tab, form feed, carriage return,
space).  Used by `trimSpace` and `strFields`. -/
def isSpaceChar (c : Char) : Bool :=
  c = ' ' || c = '\t' || c = '\n' || c = '\x0b' || c = '\x0c' || c = '\r'

/-- Go `strings.TrimSpace`: drop leading and trailing whitespace. -/
def trimSpace (s : Str) : Str :=
  ((s.dropWhile isSpaceChar).reverse.dropWhile isSpaceChar).reverse

/-- Modelled from the spec: the `isBlank` helper (not under `src/`); the spec
says a command fails when it is "empty or all-whitespace". -/
def isBlank (s : Str) : Bool := (trimSpace s).isEmpty

/-- Modelled from the spec: the `containsWhitespace` helper (not under
`src/`); the spec says an argument is quoted when it "contains any
whitespace". -/
def containsWhitespace (s : Str) : Bool := s.any isSpaceChar

/-- Decimal digit test, as used by Go `strconv.Atoi` on each character. -/
def isDigitChar (c : Char) : Bool := '0' ≤ c && c ≤ '9'

/-- Value of a string of decimal digits. -/
def digitsToNat (s : Str) : Nat :=
  s.foldl (fun acc c => acc * 10 + (c.toNat - 48)) 0

/-- Go `strconv.Atoi`: an optional sign followed by at least one decimal
digit; anything else is a syntax error (`none`).  The model uses unbounded
integers, so the int64 range clamp of the Go function does not arise. -/
def atoi (s : Str) : Option Int :=
  match s with
  | [] => none
  | '+' :: rest =>
    if rest ≠ [] ∧ rest.all isDigitChar then some (digitsToNat rest) else none
  | '-' :: rest =>
    if rest ≠ [] ∧ rest.all isDigitChar then some (-(digitsToNat rest : Int)) else none
  | _ =>
    if s.all isDigitChar then some (digitsToNat s) else none

/-- The Go idiom `exitCode, _ := strconv.Atoi(s)`: the parse error is ignored
and a failed parse leaves the zero value. -/
def atoiOrZero (s : Str) : Int := (atoi s).getD 0

/-- Go `strings.LastIndexByte(s, ':')` together with the two slices
`s[0:idx]` and `s[idx+1:]` taken by `RunCommand`: splits a string at its
last `':'`, returning the text strictly before and strictly after it;
`none` when the string contains no `':'`. -/
def splitAtLastColon : Str → Option (Str × Str)
  | [] => none
  | c :: rest =>
    match splitAtLastColon rest with
    | some (bef, aft) => some (c :: bef, aft)
    | none => if c = ':' then some ([], rest) else none

/-- Go `strings.Replace(s, "\r\n", "\n", -1)`: replace every CRLF pair by
LF, scanning left to right. -/
def replaceCRLF : Str → Str
  | '\r' :: '\n' :: rest => '\n' :: replaceCRLF rest
  | c :: rest => c :: replaceCRLF rest
  | [] => []

/-- Go `strings.Join(parts, " ")` (and the `"%s %s"` join of command and
arguments): interleave a single space between the parts. -/
def joinSpace : List Str → Str
  | [] => []
  | [x] => x
  | x :: y :: rest => x ++ ' ' :: joinSpace (y :: rest)

/-- The double-quote character, written by its ASCII code. -/
def dquote : Char := '\x22'

/-- Wrap an argument in a pair of double quotes (`fmt.Sprintf("\"%s\"", arg)`
in `prepareCommandLine`). -/
def quoteArg (a : Str) : Str := dquote :: a ++ [dquote]

/-- The ParseError message of `prepareCommandLine`:
`"arg at index %d contains an invalid double quote: %s"`. -/
def argQuoteMsg (i : Nat) (a : Str) : Str :=
  strL ("arg at index ") ++ Nat.toDigits 10 i ++
    strL (" contains an invalid double quote: ") ++ a

/-- The argument loop of `prepareCommandLine` (`device.go:388-395`), carrying
the 0-based index: the first argument containing a double quote aborts with a
ParseError; otherwise arguments containing whitespace are quoted. -/
def processArgs : Nat → List Str → Except GoErr (List Str)
  | _, [] => .ok []
  | i, a :: rest =>
    if dquote ∈ a then .error (.parseError (argQuoteMsg i a))
    else
      match processArgs (i + 1) rest with
      | .error e => .error e
      | .ok tail => .ok ((if containsWhitespace a then quoteArg a else a) :: tail)

/-- `prepareCommandLine` (`device.go:383-403`): reject a blank command,
validate/quote the arguments, then join command and arguments with single
spaces (an empty argument list returns the command unchanged). -/
def prepareCommandLine (cmd : Str) (args : List Str) : Except GoErr Str :=
  if isBlank cmd then .error (.assertionError (strL ("command cannot be empty")))
  else
    match processArgs 0 args with
    | .error e => .error e
    | .ok quoted =>
      match quoted with
      | [] => .ok cmd
      | _ => .ok (cmd ++ ' ' :: joinSpace quoted)

/-- The three literal tokens `";"`, `"echo"`, `":$?"` appended to the argument
list by `RunCommand` and `RunCommandWithExitCode` to embed the exit-code
sentinel. -/
def exitSentinelArgs : List Str := [[';'], strL ("echo"), strL (":$?")]

/-- `Device.RunCommand` (`device.go:191-207`).  The network layer is
abstracted: `raw` is the shell output the server delivers, read until peer
close; a failure of `prepareCommandLine` (surfaced through `commandOutput` /
`OpenCommand`) returns the empty output with that error, before any parsing.
On success the output is split at its last `':'`; a missing `':'` is the
"parse exit code failed" error; the trimmed suffix is parsed as the exit code
(unparsable defaults to 0); a non-zero code becomes a `ShellExitError`
carrying `strings.Join(args, " ")`; the retained text has CRLF normalized
to LF. -/
def Device.RunCommand (cmd : Str) (args : List Str) (raw : Str) : Str × Option GoErr :=
  match prepareCommandLine cmd (args ++ exitSentinelArgs) with
  | .error e => ([], some e)
  | .ok _ =>
    match splitAtLastColon raw with
    | none => (raw, some (.genericError (strL ("adb shell error, parse exit code failed"))))
    | some (bef, aft) =>
      let exitCode := atoiOrZero (trimSpace aft)
      let err : Option GoErr :=
        if exitCode ≠ 0 then some (.shellExit (joinSpace args) exitCode) else none
      (replaceCRLF bef, err)

/-- Go `strings.Fields`: split around runs of whitespace; no empty fields. -/
def strFields : Str → List Str
  | [] => []
  | c :: rest =>
    if isSpaceChar c then strFields rest
    else
      match strFields rest with
      | [] => [[c]]
      | f :: fs =>
        match rest with
        | [] => [[c]]
        | d :: _ => if isSpaceChar d then [c] :: f :: fs else (c :: f) :: fs

/-- Go `strings.Split(s, ":")`: split on every `':'`; one more field than
separators, empty fields kept. -/
def splitOnChar (sep : Char) : Str → List Str
  | [] => [[]]
  | c :: rest =>
    if c = sep then [] :: splitOnChar sep rest
    else
      match splitOnChar sep rest with
      | [] => [[c]]
      | f :: fs => (c :: f) :: fs

/-- `ForwardSpec` (`device.go:64-67`): protocol tag and port-or-name. -/
structure ForwardSpec where
  Protocol : Str
  PortOrName : Str
deriving DecidableEq

/-- `ForwardSpec.String` (`device.go:69-71`): serializes as
`protocol:portOrName`. -/
def ForwardSpec.toStr (f : ForwardSpec) : Str :=
  f.Protocol ++ ':' :: f.PortOrName

/-- `ForwardSpec.parseString` (`device.go:73-81`): split on `':'`; exactly two
fields are required, otherwise the format error
`"expect string contains only one ':', str = %s"` names the string. -/
def ForwardSpec.parseString (s : Str) : Except GoErr ForwardSpec :=
  match splitOnChar ':' s with
  | [a, b] => .ok ⟨a, b⟩
  | _ => .error (.genericError (strL ("expect string contains only one ':', str = ") ++ s))

/-- `ForwardPair` (`device.go:83-87`). -/
structure ForwardPair where
  Serial : Str
  Local : ForwardSpec
  Remote : ForwardSpec
deriving DecidableEq

/-- The row loop of `Device.ForwardList` (`device.go:103-116`): consume the
whitespace-delimited fields three at a time; rows whose serial differs from
the device's own serial are skipped before their tokens are parsed; a parse
failure of a matching row's local or remote token aborts with that error. -/
def parseForwardRows (devSerial : Str) : List Str → Except GoErr (List ForwardPair)
  | s :: l :: r :: rest =>
    if s ≠ devSerial then parseForwardRows devSerial rest
    else
      match ForwardSpec.parseString l with
      | .error e => .error e
      | .ok fl =>
        match ForwardSpec.parseString r with
        | .error e => .error e
        | .ok fr =>
          match parseForwardRows devSerial rest with
          | .error e => .error e
          | .ok tail => .ok (⟨s, fl, fr⟩ :: tail)
  | _ => .ok []

/-- `Device.ForwardList` (`device.go:89-118`).  The two attribute round trips
are abstracted: `devSerial` is the response to the `get-serialno` request
(fetched first) and `attr` the response to `list-forward`.  A field count not
divisible by three is the hard parse error `"list forward parse error"`. -/
def Device.ForwardList (devSerial : Str) (attr : Str) : Except GoErr (List ForwardPair) :=
  let fields := strFields attr
  if fields.length % 3 ≠ 0 then .error (.genericError (strL ("list forward parse error")))
  else parseForwardRows devSerial fields

/-- Modelled from the spec: the `DeviceInfo` record (its defining file is not
under `src/`) — "serial, product, model, device name, transport-id". -/
structure DeviceInfo where
  Serial : Str
  Product : Str
  Model : Str
  DeviceName : Str
  TransportId : Nat
deriving DecidableEq

/-- The fixed text of the DeviceNotFound message of `Device.DeviceInfo`
(`device.go:159`): `"device list doesn't contain serial %s"`. -/
def dnfTemplate : Str := strL ("device list doesn't contain serial ")

/-- `Device.DeviceInfo` (`device.go:139-161`).  The `get-serialno` round trip
and the injected device-lister are abstracted: `serial` is the device's own
serial and `devices` the lister's result.  The list is scanned linearly for
the first entry with a matching serial; no match is a DeviceNotFound error
embedding the serial. -/
def Device.deviceInfo (serial : Str) (devices : List DeviceInfo) : Except GoErr DeviceInfo :=
  match devices.find? (fun d => d.Serial == serial) with
  | some d => .ok d
  | none => .error (.deviceNotFound (dnfTemplate ++ serial))

/-- Number of positions at which `pat` occurs in `s` (a formalization of
"names ... exactly once"). -/
def occCount (pat s : Str) : Nat :=
  (List.range (s.length + 1)).countP (fun i => pat.isPrefixOf (s.drop i))

/-- The character class `\s` of Go's regexp package: `[\t\n\f\r ]`. -/
def isWsRE (c : Char) : Bool :=
  c = '\t' || c = '\n' || c = '\x0c' || c = '\r' || c = ' '

/-- The lazy group `(.*?)\]` at the end of the getprop pattern: capture the
shortest run of non-newline characters up to a `']'` (nothing follows the
`']'` in the pattern, so the first `']'` always completes the match);
returns the capture and the rest of the text after the `']'`. -/
def lazyUptoRB : Str → Option (Str × Str)
  | [] => none
  | ']' :: rest => some ([], rest)
  | '\n' :: _ => none
  | c :: rest =>
    match lazyUptoRB rest with
    | some (b, r) => some (c :: b, r)
    | none => none

/-- The tail `\s*\[(.*?)\]` of the getprop pattern, applied after a `]:` has
been matched: greedily consume whitespace (no backtracking is needed since
`'['` is not in `\s`), require `'['`, then capture lazily up to `']'`. -/
def matchPropTail (l : Str) : Option (Str × Str) :=
  match l.dropWhile isWsRE with
  | '[' :: rest => lazyUptoRB rest
  | _ => none

/-- The lazy group `(.*?)\]:` of the getprop pattern with backtracking: find
the shortest split of the text (after the opening `'['`) at a `"]:"` pair such
that the rest of the pattern matches; the capture may not contain a newline.
Returns (first capture, second capture, text after the whole match).  Fuelled
by the text length (each step consumes at least one character, so fuel equal
to the length never runs out). -/
def matchPropA : Nat → Str → Option (Str × Str × Str)
  | 0, _ => none
  | _ + 1, [] => none
  | fuel + 1, ']' :: ':' :: rest =>
    match matchPropTail rest with
    | some (b, r) => some ([], b, r)
    | none =>
      match matchPropA fuel (':' :: rest) with
      | some (a, b, r) => some (']' :: a, b, r)
      | none => none
  | _ + 1, '\n' :: _ => none
  | fuel + 1, c :: rest =>
    match matchPropA fuel rest with
    | some (a, b, r) => some (c :: a, b, r)
    | none => none

/-- Leftmost, non-overlapping scan of
`regexp.FindAllStringSubmatch` for the pattern `\[(.*?)\]:\s*\[(.*?)\]`
(`device.go:255-256`), fuelled by the text length (each step consumes at
least one character, so the fuel never runs out). -/
def findAllPropPairs : Nat → Str → List (Str × Str)
  | 0, _ => []
  | _ + 1, [] => []
  | fuel + 1, '[' :: rest =>
    match matchPropA rest.length rest with
    | some (a, b, r) => (a, b) :: findAllPropPairs fuel r
    | none => findAllPropPairs fuel rest
  | fuel + 1, _ :: rest => findAllPropPairs fuel rest

/-- Go map insertion `props[key] = val`: overwrite an existing key, else
append; the map is modelled as an insertion-ordered association list. -/
def insertAssoc (k v : Str) : List (Str × Str) → List (Str × Str)
  | [] => [(k, v)]
  | (k', v') :: rest => if k' = k then (k, v) :: rest else (k', v') :: insertAssoc k v rest

/-- `Device.Properties` (`device.go:250-264`): run the regexp
`\[(.*?)\]:\s*\[(.*?)\]` over the getprop output (`propOutput`, the shell
output of `commandOutput("getprop")`, abstracted as a parameter) and collect
every key/value submatch pair into a map. -/
def Device.Properties (propOutput : Str) : List (Str × Str) :=
  (findAllPropPairs propOutput.length propOutput).foldl
    (fun m kv => insertAssoc kv.1 kv.2 m) []

/-- `Device.RunCommandWithExitCode` (`device_extra.go:138-154`): appends the
sentinel tokens and delegates to `RunCommand` (which appends its own copy of
the sentinel), then re-extracts an exit code from `RunCommand`'s already
stripped output, returning it explicitly. -/
def Device.RunCommandWithExitCode (cmd : Str) (args : List Str) (raw : Str) :
    Str × Int × Option GoErr :=
  match Device.RunCommand cmd (args ++ exitSentinelArgs) raw with
  | (outStr, some e) => (outStr, 0, some e)
  | (outStr, none) =>
    match splitAtLastColon outStr with
    | none => (outStr, 0, some (.genericError (strL ("adb shell aborted, can not parse exit code"))))
    | some (bef, aft) =>
      let exitCode := atoiOrZero (trimSpace aft)
      let err : Option GoErr :=
        if exitCode ≠ 0 then some (.shellExit (joinSpace args) exitCode) else none
      (replaceCRLF bef, exitCode, err)

/-- Quote an argument exactly when it contains whitespace (the per-argument
transformation of `prepareCommandLine`). -/
def quoteIfWs (a : Str) : Str := if containsWhitespace a then quoteArg a else a

/-- Group a token list into consecutive triples (the `fields[i*3 ..]` indexing
of `ForwardList`); a remainder shorter than three is dropped. -/
def chunksOf3 : List Str → List (Str × Str × Str)
  | a :: b :: c :: rest => (a, b, c) :: chunksOf3 rest
  | _ => []

/-- Definition following the spec's words, for comparison with
`Device.ForwardList`: of the whitespace-delimited `(serial, local, remote)`
triples, keep exactly those whose serial token equals the device's own
serial, in response order, parsing their local and remote tokens. -/
def specForwardTriples (dev : Str) (fields : List Str) : List ForwardPair :=
  (chunksOf3 fields).filterMap (fun t =>
    if t.1 = dev then
      match ForwardSpec.parseString t.2.1, ForwardSpec.parseString t.2.2 with
      | .ok l, .ok r => some ⟨t.1, l, r⟩
      | _, _ => none
    else none)

/-- Absence of two consecutive carriage returns. -/
def noCRCR : Str → Bool
  | '\r' :: '\r' :: _ => false
  | _ :: rest => noCRCR rest
  | [] => true

/-- Absence of a CRLF pair. -/
def noCRLF : Str → Bool
  | '\r' :: '\n' :: _ => false
  | _ :: rest => noCRLF rest
  | [] => true

theorem processArgs_ok (args : List Str) (i : Nat) (ha : ∀ a ∈ args, dquote ∉ a) :
    processArgs i args = .ok (args.map quoteIfWs) := by
  induction args generalizing i with
  | nil => rfl
  | cons a rest ih =>
    have hna : dquote ∉ a := ha a (List.mem_cons_self a rest)
    have hrest : ∀ b ∈ rest, dquote ∉ b := fun b hb => ha b (List.mem_cons_of_mem a hb)
    simp [processArgs, hna, ih i.succ hrest, quoteIfWs]

theorem joinSpace_cons (x : Str) (ys : List Str) (h : ys ≠ []) :
    joinSpace (x :: ys) = x ++ ' ' :: joinSpace ys := by
  cases ys with
  | nil => exact absurd rfl h
  | cons y rest => rfl

/-- C2: for every non-blank command and argument list free of double quotes,
`prepareCommandLine` succeeds and returns the command followed by the
arguments in order, space-joined, with whitespace-containing arguments
wrapped in double quotes and all others unchanged; an empty argument list
yields exactly the command. -/
theorem prepareCommandLine_success_spec (cmd : Str) (args : List Str)
    (hc : isBlank cmd = false) (ha : ∀ a ∈ args, dquote ∉ a) :
    prepareCommandLine cmd args = .ok (joinSpace (cmd :: args.map quoteIfWs))
    ∧ (args = [] → prepareCommandLine cmd args = .ok cmd) := by
  have hmain : prepareCommandLine cmd args = .ok (joinSpace (cmd :: args.map quoteIfWs)) := by
    unfold prepareCommandLine
    rw [hc]
    simp only [Bool.false_eq_true, if_false, processArgs_ok args 0 ha]
    cases hargs : args.map quoteIfWs with
    | nil => rfl
    | cons m ms => rw [joinSpace_cons cmd (m :: ms) (by simp)]
  refine ⟨hmain, fun he => ?_⟩
  subst he
  simpa using hmain

/-- C2 witness: the spec's own example,
`prepareCommandLine("cmd", "arg with spaces") == "cmd \"arg with spaces\""`,
and the empty-argument case. -/
theorem prepareCommandLine_success_spec_witness :
    prepareCommandLine (strL "cmd") [strL "arg with spaces"] =
      .ok (strL "cmd \"arg with spaces\"")
    ∧ prepareCommandLine (strL "ls") [] = .ok (strL "ls") := by
  constructor
  · exact (prepareCommandLine_success_spec (strL "cmd") [strL "arg with spaces"]
      (by decide) (by decide)).1
  · exact (prepareCommandLine_success_spec (strL "ls") [] (by decide) (by decide)).2 rfl

theorem processArgs_first_err (args : List Str) (i k : Nat) (hk : k < args.length)
    (hq : dquote ∈ args[k]) (hfirst : ∀ j (hj : j < k), dquote ∉ args[j]) :
    processArgs i args = .error (.parseError (argQuoteMsg (i + k) args[k])) := by
  induction args generalizing i k with
  | nil => exact absurd hk (by simp)
  | cons a rest ih =>
    cases k with
    | zero =>
      simp only [List.getElem_cons_zero] at hq ⊢
      simp [processArgs, hq]
    | succ k' =>
      have hna : dquote ∉ a := by
        have := hfirst 0 (Nat.succ_pos k')
        simpa using this
      have hk' : k' < rest.length := by simpa using hk
      have hq' : dquote ∈ rest[k'] := by simpa using hq
      have hfirst' : ∀ j (hj : j < k'), dquote ∉ rest[j] := by
        intro j hj
        have := hfirst (j + 1) (by omega)
        simpa using this
      have hrec := ih (i + 1) k' hk' hq' hfirst'
      simp only [processArgs, if_neg hna, hrec]
      have : i + 1 + k' = i + (k' + 1) := by omega
      rw [this]
      simp

theorem processArgs_err_iff (args : List Str) (i : Nat) :
    (∃ e, processArgs i args = .error e) ↔ ∃ a ∈ args, dquote ∈ a := by
  induction args generalizing i with
  | nil => simp [processArgs]
  | cons a rest ih =>
    by_cases hq : dquote ∈ a
    · simp [processArgs, hq]
    · simp only [processArgs, if_neg hq]
      constructor
      · intro ⟨e, he⟩
        rcases hrec : processArgs (i + 1) rest with e' | tail
        · have : ∃ e, processArgs (i + 1) rest = .error e := ⟨e', hrec⟩
          rcases (ih (i + 1)).1 this with ⟨b, hb, hbq⟩
          exact ⟨b, List.mem_cons_of_mem a hb, hbq⟩
        · rw [hrec] at he
          exact absurd he (by simp)
      · intro ⟨b, hb, hbq⟩
        rcases List.mem_cons.1 hb with hba | hbr
        · exact absurd (hba ▸ hbq) hq
        · rcases (ih (i + 1)).2 ⟨b, hbr, hbq⟩ with ⟨e, he⟩
          exact ⟨e, by rw [he]⟩

/-- C3: `prepareCommandLine` fails exactly when the command is blank or some
argument contains a double quote; a blank command yields the AssertionError
`"command cannot be empty"`; otherwise the failure happens at the first
argument containing a double quote, with a ParseError naming its 0-based
index and the offending argument. -/
theorem prepareCommandLine_failure_spec (cmd : Str) (args : List Str) :
    (isBlank cmd = true →
      prepareCommandLine cmd args = .error (.assertionError (strL ("command cannot be empty"))))
    ∧ ((∃ e, prepareCommandLine cmd args = .error e) ↔
        (isBlank cmd = true ∨ ∃ a ∈ args, dquote ∈ a))
    ∧ (isBlank cmd = false →
        ∀ k (hk : k < args.length), dquote ∈ args[k] → (∀ j (hj : j < k), dquote ∉ args[j]) →
          prepareCommandLine cmd args = .error (.parseError (argQuoteMsg k args[k]))) := by
  refine ⟨fun hb => by simp [prepareCommandLine, hb], ?_, fun hb k hk hq hfirst => ?_⟩
  · by_cases hb : isBlank cmd
    · simp [prepareCommandLine, hb]
    · simp only [prepareCommandLine, hb, Bool.false_eq_true, if_false]
      rw [false_or, ← processArgs_err_iff args 0]
      constructor
      · intro ⟨e, he⟩
        rcases hrec : processArgs 0 args with e' | quoted
        · exact ⟨e', rfl⟩
        · rw [hrec] at he
          cases quoted <;> exact absurd he (by simp)
      · intro ⟨e, he⟩
        exact ⟨e, by rw [he]⟩
  · have := processArgs_first_err args 0 k hk hq hfirst
    simp only [prepareCommandLine, hb, Bool.false_eq_true, if_false, this]
    simp

/-- C3 witness: the spec's example `prepareCommandLine("cmd", "quoted\"arg")`
fails with a ParseError naming index 0 and the offending string, and blank
commands fail with the AssertionError. -/
theorem prepareCommandLine_failure_spec_witness :
    prepareCommandLine (strL "cmd") [strL "quoted\"arg"] =
      .error (.parseError (argQuoteMsg 0 (strL "quoted\"arg")))
    ∧ prepareCommandLine (strL "  ") [] =
      .error (.assertionError (strL ("command cannot be empty"))) := by
  constructor
  · exact (prepareCommandLine_failure_spec (strL "cmd") [strL "quoted\"arg"]).2.2
      (by decide) 0 (by decide) (by decide) (fun j hj => absurd hj (by omega))
  · exact (prepareCommandLine_failure_spec (strL "  ") []).1 (by decide)

theorem prepare_with_sentinel_ok (cmd : Str) (args : List Str)
    (hc : isBlank cmd = false) (ha : ∀ a ∈ args, dquote ∉ a) :
    ∃ s, prepareCommandLine cmd (args ++ exitSentinelArgs) = .ok s := by
  have ha' : ∀ a ∈ args ++ exitSentinelArgs, dquote ∉ a := by
    intro a hmem
    rcases List.mem_append.1 hmem with h | h
    · exact ha a h
    · simp only [exitSentinelArgs, List.mem_cons, List.not_mem_nil, or_false] at h
      rcases h with rfl | rfl | rfl <;> decide
  exact ⟨_, (prepareCommandLine_success_spec cmd _ hc ha').1⟩

theorem runCommand_eq_some (cmd : Str) (args : List Str) (raw bef aft : Str)
    (hc : isBlank cmd = false) (ha : ∀ a ∈ args, dquote ∉ a)
    (hs : splitAtLastColon raw = some (bef, aft)) :
    Device.RunCommand cmd args raw =
      (replaceCRLF bef,
        if atoiOrZero (trimSpace aft) ≠ 0
        then some (GoErr.shellExit (joinSpace args) (atoiOrZero (trimSpace aft))) else none) := by
  obtain ⟨s, hp⟩ := prepare_with_sentinel_ok cmd args hc ha
  simp only [Device.RunCommand, hp, hs]

theorem runCommand_eq_none (cmd : Str) (args : List Str) (raw : Str)
    (hc : isBlank cmd = false) (ha : ∀ a ∈ args, dquote ∉ a)
    (hs : splitAtLastColon raw = none) :
    Device.RunCommand cmd args raw =
      (raw, some (.genericError (strL ("adb shell error, parse exit code failed")))) := by
  obtain ⟨s, hp⟩ := prepare_with_sentinel_ok cmd args hc ha
  simp only [Device.RunCommand, hp, hs]

/-- C1: for every `RunCommand` invocation that reaches the shell (non-blank
command, no double quotes in the arguments) whose raw output contains a
`':'`, the returned output is everything strictly before the last `':'` with
CRLF normalized to LF, and the exit code is the trimmed, `Atoi`-parsed suffix
(an unparsable suffix defaults to 0 and surfaces no error); raw output with
no `':'` at all yields the "parse exit code failed" error.  In particular raw
output `"output:0"` yields `("output", nil)`. -/
theorem runCommand_exit_sentinel_spec (cmd : Str) (args : List Str) (raw : Str)
    (hc : isBlank cmd = false) (ha : ∀ a ∈ args, dquote ∉ a) :
    (∀ bef aft, splitAtLastColon raw = some (bef, aft) →
      Device.RunCommand cmd args raw =
        (replaceCRLF bef,
          if atoiOrZero (trimSpace aft) ≠ 0
          then some (GoErr.shellExit (joinSpace args) (atoiOrZero (trimSpace aft))) else none)
      ∧ (atoi (trimSpace aft) = none → (Device.RunCommand cmd args raw).2 = none))
    ∧ (splitAtLastColon raw = none →
        Device.RunCommand cmd args raw =
          (raw, some (.genericError (strL ("adb shell error, parse exit code failed")))))
    ∧ Device.RunCommand (strL "cmd") [] (strL "output:0") = (strL "output", none) := by
  refine ⟨fun bef aft hs => ⟨runCommand_eq_some cmd args raw bef aft hc ha hs, fun hat => ?_⟩,
    fun hs => runCommand_eq_none cmd args raw hc ha hs, by decide⟩
  rw [runCommand_eq_some cmd args raw bef aft hc ha hs]
  simp [atoiOrZero, hat]

/-- C1 witness: the spec's `"output:0"` example and a no-colon stream. -/
theorem runCommand_exit_sentinel_spec_witness :
    Device.RunCommand (strL "cmd") [] (strL "output:0") = (strL "output", none)
    ∧ Device.RunCommand (strL "cmd") [] (strL "no colon here") =
        (strL "no colon here",
          some (.genericError (strL ("adb shell error, parse exit code failed")))) := by
  refine ⟨(runCommand_exit_sentinel_spec (strL "cmd") [] (strL "output:0")
    (by decide) (by decide)).2.2, ?_⟩
  exact (runCommand_exit_sentinel_spec (strL "cmd") [] (strL "no colon here")
    (by decide) (by decide)).2.1 (by decide)

/-- C4: when the extracted exit code is non-zero, `RunCommand` returns the
`ShellExitError` carrying the joined argument text and the exit code, still
alongside the sentinel-stripped, CRLF-normalized output; a zero exit code
returns a nil error. -/
theorem runCommand_shell_exit_error_spec (cmd : Str) (args : List Str) (raw bef aft : Str)
    (hc : isBlank cmd = false) (ha : ∀ a ∈ args, dquote ∉ a)
    (hs : splitAtLastColon raw = some (bef, aft)) :
    (atoiOrZero (trimSpace aft) ≠ 0 →
      Device.RunCommand cmd args raw =
        (replaceCRLF bef, some (.shellExit (joinSpace args) (atoiOrZero (trimSpace aft)))))
    ∧ (atoiOrZero (trimSpace aft) = 0 →
      Device.RunCommand cmd args raw = (replaceCRLF bef, none)) := by
  constructor
  · intro hnz
    rw [runCommand_eq_some cmd args raw bef aft hc ha hs, if_pos hnz]
  · intro hz
    rw [runCommand_eq_some cmd args raw bef aft hc ha hs, if_neg (by simp [hz])]

/-- C4 witness: the spec's `"output:1"` example — an exit-code error with the
output text still equal to `"output"`. -/
theorem runCommand_shell_exit_error_spec_witness :
    Device.RunCommand (strL "cmd") [] (strL "output:1") =
      (strL "output", some (.shellExit [] 1)) := by
  have h := (runCommand_shell_exit_error_spec (strL "cmd") [] (strL "output:1")
    (strL "output") (strL "1") (by decide) (by decide) (by decide)).1 (by decide)
  exact h.trans (by decide)

theorem splitOnChar_no_sep (sep : Char) (s : Str) (h : sep ∉ s) :
    splitOnChar sep s = [s] := by
  induction s with
  | nil => rfl
  | cons c rest ih =>
    have hc : ¬ c = sep := fun he => h (he ▸ List.mem_cons_self c rest)
    have hr : sep ∉ rest := fun hm => h (List.mem_cons_of_mem c hm)
    simp [splitOnChar, hc, ih hr]

theorem splitOnChar_two (p q : Str) (hp : ':' ∉ p) (hq : ':' ∉ q) :
    splitOnChar ':' (p ++ ':' :: q) = [p, q] := by
  induction p with
  | nil => simp [splitOnChar, splitOnChar_no_sep ':' q hq]
  | cons c rest ih =>
    have hc : ¬ c = ':' := fun he => hp (he ▸ List.mem_cons_self c rest)
    have hr : ':' ∉ rest := fun hm => hp (List.mem_cons_of_mem c hm)
    simp [splitOnChar, hc, ih hr]

theorem parseForwardRows_eq (dev : Str) : ∀ fields : List Str,
    (∀ t ∈ chunksOf3 fields, t.1 = dev →
      (ForwardSpec.parseString t.2.1).isOk = true ∧ (ForwardSpec.parseString t.2.2).isOk = true) →
    parseForwardRows dev fields = .ok (specForwardTriples dev fields)
  | [], _ => rfl
  | [_], _ => rfl
  | [_, _], _ => rfl
  | a :: b :: c :: rest, h => by
    have hrest : ∀ t ∈ chunksOf3 rest, t.1 = dev →
        (ForwardSpec.parseString t.2.1).isOk = true ∧
        (ForwardSpec.parseString t.2.2).isOk = true := by
      intro t ht
      exact h t (by simp [chunksOf3, ht])
    have ih := parseForwardRows_eq dev rest hrest
    by_cases hd : a = dev
    · have hwf := h (a, b, c) (by simp [chunksOf3]) hd
      rcases hpb : ForwardSpec.parseString b with eb | fl
      · rw [hpb] at hwf
        exact absurd hwf.1 (by simp [Except.isOk, Except.toBool])
      · rcases hpc : ForwardSpec.parseString c with ec | fr
        · rw [hpc] at hwf
          exact absurd hwf.2 (by simp [Except.isOk, Except.toBool])
        · simp [parseForwardRows, hd, hpb, hpc, ih, specForwardTriples, chunksOf3]
    · have hne : a ≠ dev := hd
      simp [parseForwardRows, hne, ih, specForwardTriples, chunksOf3, hd]

/-- C5 counterexample: with token count divisible by three, the claim as
stated promises the matching triples back, but a matching row whose local
token is malformed makes the whole call fail instead. -/
theorem forwardList_malformed_matching_row_cex :
    Device.ForwardList (strL "abc") (strL "abc bad tcp:1") =
      .error (.genericError (strL "expect string contains only one ':', str = bad")) := by
  decide

/-- C5 (amended): a token count not divisible by three is the hard parse
error with no results; otherwise, provided every row whose serial matches
the device's own serial has well-formed local and remote tokens, the call
returns exactly the matching triples in response order, with rows for other
serials silently dropped. -/
theorem forwardList_spec_amended (dev attr : Str) :
    ((strFields attr).length % 3 ≠ 0 →
      Device.ForwardList dev attr = .error (.genericError (strL "list forward parse error")))
    ∧ ((strFields attr).length % 3 = 0 →
        (∀ t ∈ chunksOf3 (strFields attr), t.1 = dev →
          (ForwardSpec.parseString t.2.1).isOk = true ∧
          (ForwardSpec.parseString t.2.2).isOk = true) →
        Device.ForwardList dev attr = .ok (specForwardTriples dev (strFields attr))) := by
  constructor
  · intro h3
    simp [Device.ForwardList, h3]
  · intro h3 hwf
    simp [Device.ForwardList, h3, parseForwardRows_eq dev (strFields attr) hwf]

/-- C5 witness: a response with rows for two serials; only the matching row
is returned. -/
theorem forwardList_spec_amended_witness :
    (strFields (strL "abc tcp:1 tcp:2 other tcp:3 tcp:4")).length % 3 = 0
    ∧ Device.ForwardList (strL "abc") (strL "abc tcp:1 tcp:2 other tcp:3 tcp:4") =
        .ok [⟨strL "abc", ⟨strL "tcp", strL "1"⟩, ⟨strL "tcp", strL "2"⟩⟩] := by
  refine ⟨by decide, ?_⟩
  exact ((forwardList_spec_amended (strL "abc")
    (strL "abc tcp:1 tcp:2 other tcp:3 tcp:4")).2 (by decide) (by decide)).trans (by decide)

/-- C10: with a token count divisible by three, well-formedness is only
required of rows whose serial matches the device's own serial — rows
belonging to other serials are skipped before their tokens are parsed, so a
malformed token there never fails the call. -/
theorem forwardList_other_serial_not_validated (dev attr : Str)
    (h3 : (strFields attr).length % 3 = 0)
    (hm : ∀ t ∈ chunksOf3 (strFields attr), t.1 = dev →
      (ForwardSpec.parseString t.2.1).isOk = true ∧
      (ForwardSpec.parseString t.2.2).isOk = true) :
    (Device.ForwardList dev attr).isOk = true := by
  simp [Device.ForwardList, h3, parseForwardRows_eq dev (strFields attr) hm, Except.isOk, Except.toBool]

/-- C10 witness: a row for another serial with malformed local and remote
tokens does not fail the call. -/
theorem forwardList_other_serial_not_validated_witness :
    (Device.ForwardList (strL "abc") (strL "other bad bad abc tcp:1 tcp:2")).isOk = true :=
  forwardList_other_serial_not_validated (strL "abc") (strL "other bad bad abc tcp:1 tcp:2")
    (by decide) (by decide)

/-- C6: `ForwardSpec {tcp, 8999}` serializes to `"tcp:8999"`; the ForwardPair
parsed from `"abc tcp:8994 udp:d2"` has local `{tcp, 8994}` and remote
`{udp, d2}`; a token without exactly two colon-delimited fields fails with
the format error naming the offending string; and serialization followed by
parsing is the identity on colon-free components. -/
theorem forwardSpec_roundtrip_spec :
    ForwardSpec.toStr ⟨strL "tcp", strL "8999"⟩ = strL "tcp:8999"
    ∧ Device.ForwardList (strL "abc") (strL "abc tcp:8994 udp:d2") =
        .ok [⟨strL "abc", ⟨strL "tcp", strL "8994"⟩, ⟨strL "udp", strL "d2"⟩⟩]
    ∧ (∀ s : Str, (splitOnChar ':' s).length ≠ 2 →
        ForwardSpec.parseString s =
          .error (.genericError (strL "expect string contains only one ':', str = " ++ s)))
    ∧ (∀ f : ForwardSpec, ':' ∉ f.Protocol → ':' ∉ f.PortOrName →
        ForwardSpec.parseString (ForwardSpec.toStr f) = .ok f) := by
  refine ⟨by decide, by decide, fun s hlen => ?_, fun f hp hq => ?_⟩
  · unfold ForwardSpec.parseString
    rcases hsp : splitOnChar ':' s with _ | ⟨a, _ | ⟨b, _ | ⟨c, rest⟩⟩⟩ <;>
      simp_all
  · unfold ForwardSpec.parseString ForwardSpec.toStr
    rw [splitOnChar_two f.Protocol f.PortOrName hp hq]

/-- C6 witness: the malformed token `"a:b:c"` and a concrete round trip. -/
theorem forwardSpec_roundtrip_spec_witness :
    ForwardSpec.parseString (strL "a:b:c") =
      .error (.genericError (strL "expect string contains only one ':', str = a:b:c"))
    ∧ ForwardSpec.parseString (ForwardSpec.toStr ⟨strL "udp", strL "d2"⟩) =
        .ok ⟨strL "udp", strL "d2"⟩ := by
  constructor
  · exact (forwardSpec_roundtrip_spec.2.2.1 (strL "a:b:c") (by decide)).trans (by decide)
  · exact forwardSpec_roundtrip_spec.2.2.2 ⟨strL "udp", strL "d2"⟩ (by decide) (by decide)

theorem find?_eq_of_first {α : Type} (p : α → Bool) :
    ∀ (l : List α) (k : Nat) (hk : k < l.length), p l[k] = true →
      (∀ j (hj : j < k), p (l.get ⟨j, by omega⟩) = false) → l.find? p = some l[k]
  | [], k, hk, _, _ => absurd hk (by simp)
  | a :: rest, 0, hk, hpk, _ => by
    simp only [List.getElem_cons_zero] at hpk ⊢
    simp [List.find?, hpk]
  | a :: rest, k + 1, hk, hpk, hfirst => by
    have hpa : p a = false := by
      have := hfirst 0 (Nat.succ_pos k)
      simpa using this
    have hk' : k < rest.length := by simpa using hk
    have hpk' : p rest[k] = true := by simpa using hpk
    have hfirst' : ∀ j (hj : j < k), p (rest.get ⟨j, by omega⟩) = false := by
      intro j hj
      have := hfirst (j + 1) (by omega)
      simpa using this
    have := find?_eq_of_first p rest k hk' hpk' hfirst'
    simp only [List.getElem_cons_succ]
    simp [List.find?, hpa, this]

theorem occCount_append_self (pat tmpl : Str) (hne : pat ≠ [])
    (hno : ∀ i < tmpl.length, pat.isPrefixOf ((tmpl ++ pat).drop i) = false) :
    occCount pat (tmpl ++ pat) = 1 := by
  unfold occCount
  rw [List.length_append]
  rw [show tmpl.length + pat.length + 1 = tmpl.length + (pat.length + 1) by omega]
  rw [List.range_add, List.countP_append, List.countP_map]
  have h1 : (List.range tmpl.length).countP
      (fun i => pat.isPrefixOf ((tmpl ++ pat).drop i)) = 0 := by
    apply List.countP_eq_zero.2
    intro i hi
    simp only [List.mem_range] at hi
    simp [hno i hi]
  rw [h1]
  have hfun : ((fun i => pat.isPrefixOf ((tmpl ++ pat).drop i)) ∘ (fun x => tmpl.length + x))
      = (fun k => pat.isPrefixOf (pat.drop k)) := by
    funext k
    simp [Function.comp, List.drop_append]
  rw [hfun, List.range_succ_eq_map, List.countP_cons, List.countP_map]
  have hpos : pat.isPrefixOf (pat.drop 0) = true :=
    List.isPrefixOf_iff_prefix.2 (by simp)
  have hzero : (List.range pat.length).countP
      ((fun k => pat.isPrefixOf (pat.drop k)) ∘ Nat.succ) = 0 := by
    apply List.countP_eq_zero.2
    intro j hj
    simp only [List.mem_range] at hj
    simp only [Function.comp]
    intro habs
    have hpre := List.isPrefixOf_iff_prefix.1 habs
    have hlen := hpre.length_le
    rw [List.length_drop] at hlen
    have hplen : 0 < pat.length := List.length_pos.2 hne
    omega
  simp [hpos, hzero]

/-- C7 counterexample: for the pathological serial `"serial"`, the
DeviceNotFound message contains the missing serial twice, not exactly
once. -/
theorem deviceInfo_serial_named_twice_cex :
    Device.deviceInfo (strL "serial") [] =
      .error (.deviceNotFound (strL "device list doesn't contain serial serial"))
    ∧ occCount (strL "serial") (strL "device list doesn't contain serial serial") = 2 := by
  constructor
  · decide
  · decide

/-- C7 (amended): when no listed device carries the device's own serial,
`DeviceInfo` fails with a DeviceNotFound error whose message is the fixed
text `"device list doesn't contain serial "` followed by the serial — naming
the serial exactly once whenever the serial is nonempty and does not itself
occur starting inside the fixed part of the message; when a matching entry
exists, the first `DeviceInfo` with that serial is returned. -/
theorem deviceInfo_spec_amended (serial : Str) (devices : List DeviceInfo) :
    ((∀ d ∈ devices, ¬ d.Serial = serial) →
      Device.deviceInfo serial devices = .error (.deviceNotFound (dnfTemplate ++ serial)))
    ∧ (serial ≠ [] →
        (∀ i < dnfTemplate.length, serial.isPrefixOf ((dnfTemplate ++ serial).drop i) = false) →
        occCount serial (dnfTemplate ++ serial) = 1)
    ∧ (∀ k (hk : k < devices.length), (devices[k]).Serial = serial →
        (∀ j (hj : j < k), ¬ (devices.get ⟨j, by omega⟩).Serial = serial) →
        Device.deviceInfo serial devices = .ok devices[k]) := by
  refine ⟨fun hnone => ?_, fun hne hno => occCount_append_self serial dnfTemplate hne hno,
    fun k hk hmatch hfirst => ?_⟩
  · have hfind : devices.find? (fun d => d.Serial == serial) = none := by
      apply List.find?_eq_none.2
      intro d hd
      simpa using hnone d hd
    simp [Device.deviceInfo, hfind]
  · have hfind := find?_eq_of_first (fun d => d.Serial == serial) devices k hk
      (by simpa using hmatch) (fun j hj => by simpa using hfirst j hj)
    simp [Device.deviceInfo, hfind]

/-- C7 witness: a missing serial `"xyz"` is named exactly once, and a present
serial returns the first matching entry. -/
theorem deviceInfo_spec_amended_witness :
    Device.deviceInfo (strL "xyz") [] =
      .error (.deviceNotFound (strL "device list doesn't contain serial xyz"))
    ∧ occCount (strL "xyz") (dnfTemplate ++ strL "xyz") = 1
    ∧ Device.deviceInfo (strL "xyz")
        [⟨strL "abc", [], [], [], 0⟩, ⟨strL "xyz", strL "p1", [], [], 1⟩,
          ⟨strL "xyz", strL "p2", [], [], 2⟩] =
      .ok ⟨strL "xyz", strL "p1", [], [], 1⟩ := by
  refine ⟨((deviceInfo_spec_amended (strL "xyz") []).1 (by simp)).trans (by decide),
    (deviceInfo_spec_amended (strL "xyz") []).2.1 (by decide) (by decide), ?_⟩
  have h := (deviceInfo_spec_amended (strL "xyz")
    [⟨strL "abc", [], [], [], 0⟩, ⟨strL "xyz", strL "p1", [], [], 1⟩,
      ⟨strL "xyz", strL "p2", [], [], 2⟩]).2.2 1 (by decide) (by decide) (by decide)
  exact h.trans (by decide)

theorem replaceCRLF_cons₂ (c d : Char) (t : Str) (h : ¬(c = '\r' ∧ d = '\n')) :
    replaceCRLF (c :: d :: t) = c :: replaceCRLF (d :: t) := by
  conv_lhs => rw [replaceCRLF.eq_def]
  split
  · rename_i rest heq
    rw [List.cons.injEq, List.cons.injEq] at heq
    exact absurd ⟨heq.1, heq.2.1⟩ h
  · rename_i c' rest heq
    rw [List.cons.injEq] at heq
    rw [heq.1, heq.2]
  · rename_i heq
    exact absurd heq (by simp)

theorem replaceCRLF_singleton (c : Char) : replaceCRLF [c] = [c] := by
  conv_lhs => rw [replaceCRLF.eq_def]
  split
  · rename_i rest heq
    exact absurd heq (by simp)
  · rename_i c' rest heq
    rw [List.cons.injEq] at heq
    rw [heq.1, ← heq.2]
    rfl
  · rename_i heq
    exact absurd heq (by simp)

theorem replaceCRLF_cons_ne_cr (c : Char) (t : Str) (hc : c ≠ '\r') :
    replaceCRLF (c :: t) = c :: replaceCRLF t := by
  cases t with
  | nil => exact replaceCRLF_singleton c
  | cons d t' => exact replaceCRLF_cons₂ c d t' (fun hp => hc hp.1)

theorem replaceCRLF_append (xs : Str) (y : Char) (ys : Str) (hy : y ≠ '\n') :
    replaceCRLF (xs ++ y :: ys) = replaceCRLF xs ++ replaceCRLF (y :: ys) := by
  induction xs with
  | nil => rfl
  | cons c xs' ih =>
    cases xs' with
    | nil =>
      show replaceCRLF (c :: y :: ys) = replaceCRLF [c] ++ replaceCRLF (y :: ys)
      rw [replaceCRLF_cons₂ c y ys (fun hp => hy hp.2), replaceCRLF_singleton]
      rfl
    | cons d xs'' =>
      by_cases hp : c = '\r' ∧ d = '\n'
      · obtain ⟨rfl, rfl⟩ := hp
        show '\n' :: replaceCRLF (xs'' ++ y :: ys) =
          ('\n' :: replaceCRLF xs'') ++ replaceCRLF (y :: ys)
        have ih' := ih
        rw [List.cons_append, replaceCRLF_cons_ne_cr '\n' (xs'' ++ y :: ys) (by decide),
          replaceCRLF_cons_ne_cr '\n' xs'' (by decide)] at ih'
        rw [List.cons_append]
        rw [List.cons_append] at ih'
        exact ih'
      · simp only [List.cons_append]
        rw [replaceCRLF_cons₂ c d (xs'' ++ y :: ys) hp, replaceCRLF_cons₂ c d xs'' hp,
          List.cons_append]
        have ih' := ih
        simp only [List.cons_append] at ih'
        rw [ih']

theorem isDigitChar_facts (c : Char) (h : isDigitChar c = true) :
    c ≠ '\r' ∧ c ≠ '\n' ∧ c ≠ ':' ∧ c ≠ '+' ∧ c ≠ '-' ∧ isSpaceChar c = false := by
  refine ⟨fun he => ?_, fun he => ?_, fun he => ?_, fun he => ?_, fun he => ?_, ?_⟩
  · subst he; exact absurd h (by decide)
  · subst he; exact absurd h (by decide)
  · subst he; exact absurd h (by decide)
  · subst he; exact absurd h (by decide)
  · subst he; exact absurd h (by decide)
  · cases hs : isSpaceChar c
    · rfl
    · exfalso
      simp only [isSpaceChar, Bool.or_eq_true, decide_eq_true_eq] at hs
      rcases hs with ((((rfl | rfl) | rfl) | rfl) | rfl) | rfl <;> exact absurd h (by decide)

theorem colon_not_mem_digits (ds : Str) (hd : ds.all isDigitChar = true) : ':' ∉ ds :=
  fun hmem => absurd (List.all_eq_true.1 hd _ hmem) (by decide)

theorem splitAtLastColon_eq_none (s : Str) (h : ':' ∉ s) : splitAtLastColon s = none := by
  induction s with
  | nil => rfl
  | cons c rest ih =>
    have hc : ¬ c = ':' := fun he => h (he ▸ List.mem_cons_self c rest)
    have hr : ':' ∉ rest := fun hm => h (List.mem_cons_of_mem c hm)
    simp [splitAtLastColon, ih hr, hc]

theorem splitAtLastColon_append (xs zs : Str) (h : ':' ∉ zs) :
    splitAtLastColon (xs ++ ':' :: zs) = some (xs, zs) := by
  induction xs with
  | nil => simp [splitAtLastColon, splitAtLastColon_eq_none zs h]
  | cons c xs' ih => simp [splitAtLastColon, ih]

theorem replaceCRLF_digits_crlf (ds : Str) (hd : ds.all isDigitChar = true) :
    replaceCRLF (ds ++ strL "\r\n") = ds ++ strL "\n" := by
  induction ds with
  | nil => rfl
  | cons d ds' ih =>
    rw [List.all_cons, Bool.and_eq_true] at hd
    rw [List.cons_append, replaceCRLF_cons_ne_cr d _ (isDigitChar_facts d hd.1).1,
      ih hd.2, List.cons_append]

theorem noCRLF_cons₂ (c d : Char) (t : Str) (h : ¬(c = '\r' ∧ d = '\n')) :
    noCRLF (c :: d :: t) = noCRLF (d :: t) := by
  conv_lhs => rw [noCRLF.eq_def]
  split
  · rename_i rest heq
    rw [List.cons.injEq, List.cons.injEq] at heq
    exact absurd ⟨heq.1, heq.2.1⟩ h
  · rename_i c' rest heq
    rw [List.cons.injEq] at heq
    rw [← heq.2]
  · rename_i heq
    exact absurd heq (by simp)

theorem noCRCR_cons₂ (c d : Char) (t : Str) (h : ¬(c = '\r' ∧ d = '\r')) :
    noCRCR (c :: d :: t) = noCRCR (d :: t) := by
  conv_lhs => rw [noCRCR.eq_def]
  split
  · rename_i rest heq
    rw [List.cons.injEq, List.cons.injEq] at heq
    exact absurd ⟨heq.1, heq.2.1⟩ h
  · rename_i c' rest heq
    rw [List.cons.injEq] at heq
    rw [← heq.2]
  · rename_i heq
    exact absurd heq (by simp)

theorem noCRLF_singleton (c : Char) : noCRLF [c] = true := by
  rw [noCRLF.eq_def]
  split
  · rename_i rest heq
    exact absurd heq (by simp)
  · rename_i c' rest heq
    rw [List.cons.injEq] at heq
    rw [← heq.2]
    rfl
  · rename_i heq
    exact absurd heq (by simp)

theorem noCRLF_cons_ne_cr (c : Char) (t : Str) (hc : c ≠ '\r') :
    noCRLF (c :: t) = noCRLF t := by
  cases t with
  | nil => rw [noCRLF_singleton]; rfl
  | cons d t' => exact noCRLF_cons₂ c d t' (fun hp => hc hp.1)

theorem noCRLF_pair (t : Str) : noCRLF ('\r' :: '\n' :: t) = false := rfl

theorem noCRCR_pair (t : Str) : noCRCR ('\r' :: '\r' :: t) = false := rfl

theorem noCRLF_replaceCRLF (s : Str) : noCRCR s = true → noCRLF (replaceCRLF s) = true := by
  induction s with
  | nil => intro _; rfl
  | cons c s' ih =>
    intro h
    cases s' with
    | nil =>
      rw [replaceCRLF_singleton]
      exact noCRLF_singleton c
    | cons d s'' =>
      by_cases hp : c = '\r' ∧ d = '\n'
      · obtain ⟨rfl, rfl⟩ := hp
        show noCRLF ('\n' :: replaceCRLF s'') = true
        have h' : noCRCR ('\n' :: s'') = true := by
          rw [noCRCR_cons₂ '\r' '\n' s'' (by decide)] at h
          exact h
        have ihh := ih h'
        rw [replaceCRLF_cons_ne_cr '\n' s'' (by decide)] at ihh
        exact ihh
      · rw [replaceCRLF_cons₂ c d s'' hp]
        by_cases hc : c = '\r'
        · subst hc
          have hd : d ≠ '\n' := fun he => hp ⟨rfl, he⟩
          have hdr : d ≠ '\r' := by
            intro he
            subst he
            rw [noCRCR_pair] at h
            exact absurd h (by simp)
          rw [replaceCRLF_cons_ne_cr d s'' hdr,
            noCRLF_cons₂ '\r' d _ (fun hpp => hd hpp.2),
            ← replaceCRLF_cons_ne_cr d s'' hdr]
          apply ih
          rw [noCRCR_cons₂ '\r' d s'' (fun hpp => hdr hpp.2)] at h
          exact h
        · rw [noCRLF_cons_ne_cr c _ hc]
          apply ih
          rw [noCRCR_cons₂ c d s'' (fun hpp => hc hpp.1)] at h
          exact h

theorem replaceCRLF_of_noCRLF (s : Str) : noCRLF s = true → replaceCRLF s = s := by
  induction s with
  | nil => intro _; rfl
  | cons c t ih =>
    intro h
    cases t with
    | nil => exact replaceCRLF_singleton c
    | cons d t' =>
      by_cases hp : c = '\r' ∧ d = '\n'
      · obtain ⟨rfl, rfl⟩ := hp
        rw [noCRLF_pair] at h
        exact absurd h (by simp)
      · rw [replaceCRLF_cons₂ c d t' hp]
        rw [noCRLF_cons₂ c d t' hp] at h
        rw [ih h]

theorem replaceCRLF_idem (s : Str) (h : noCRCR s = true) :
    replaceCRLF (replaceCRLF s) = replaceCRLF s :=
  replaceCRLF_of_noCRLF _ (noCRLF_replaceCRLF s h)

theorem dropWhile_space_of_digits (l : Str) (h : l.all isDigitChar = true) :
    l.dropWhile isSpaceChar = l := by
  cases l with
  | nil => rfl
  | cons x t =>
    rw [List.all_cons, Bool.and_eq_true] at h
    rw [List.dropWhile_cons, (isDigitChar_facts x h.1).2.2.2.2.2]
    simp

theorem trimSpace_digits_append (ds sfx : Str) (hne : ds ≠ []) (hd : ds.all isDigitChar = true)
    (hs : sfx.all isSpaceChar = true) : trimSpace (ds ++ sfx) = ds := by
  unfold trimSpace
  obtain ⟨d, ds', rfl⟩ : ∃ d ds', ds = d :: ds' := by
    cases ds with
    | nil => exact absurd rfl hne
    | cons x t => exact ⟨x, t, rfl⟩
  have hd1 : isDigitChar d = true := by
    rw [List.all_cons, Bool.and_eq_true] at hd
    exact hd.1
  have hd2 : ds'.all isDigitChar = true := by
    rw [List.all_cons, Bool.and_eq_true] at hd
    exact hd.2
  rw [List.cons_append, List.dropWhile_cons, (isDigitChar_facts d hd1).2.2.2.2.2]
  simp only [Bool.false_eq_true, if_false]
  rw [show (d :: (ds' ++ sfx)).reverse = sfx.reverse ++ (ds'.reverse ++ [d]) by
    rw [List.reverse_cons, List.reverse_append, List.append_assoc]]
  rw [List.dropWhile_append]
  have hsrev : sfx.reverse.dropWhile isSpaceChar = [] := by
    rw [List.dropWhile_eq_nil_iff]
    intro x hx
    exact List.all_eq_true.1 hs x (List.mem_reverse.1 hx)
  rw [hsrev]
  simp only [List.isEmpty_nil, if_true]
  have halld : (ds'.reverse ++ [d]).all isDigitChar = true := by
    rw [List.all_append, Bool.and_eq_true]
    refine ⟨?_, by simp [hd1]⟩
    rw [List.all_eq_true]
    intro x hx
    exact List.all_eq_true.1 hd2 x (List.mem_reverse.1 hx)
  rw [dropWhile_space_of_digits _ halld]
  rw [List.reverse_append, List.reverse_reverse]
  rfl

theorem atoi_digits (ds : Str) (hne : ds ≠ []) (hd : ds.all isDigitChar = true) :
    atoi ds = some ((digitsToNat ds : Int)) := by
  obtain ⟨d, ds', rfl⟩ : ∃ d ds', ds = d :: ds' := by
    cases ds with
    | nil => exact absurd rfl hne
    | cons x t => exact ⟨x, t, rfl⟩
  have hd1 : isDigitChar d = true := by
    rw [List.all_cons, Bool.and_eq_true] at hd
    exact hd.1
  have hp : d ≠ '+' := (isDigitChar_facts d hd1).2.2.2.1
  have hm : d ≠ '-' := (isDigitChar_facts d hd1).2.2.2.2.1
  rw [atoi.eq_def]
  split
  · rename_i heq
    exact absurd heq (by simp)
  · rename_i rest heq
    rw [List.cons.injEq] at heq
    exact absurd heq.1 hp
  · rename_i rest heq
    rw [List.cons.injEq] at heq
    exact absurd heq.1 hm
  · simp [hd]

theorem atoiOrZero_digits (ds : Str) (hne : ds ≠ []) (hd : ds.all isDigitChar = true) :
    atoiOrZero ds = (digitsToNat ds : Int) := by
  rw [atoiOrZero, atoi_digits ds hne hd]
  rfl

/-- C8 counterexample: on the same server byte stream `"output:0"`,
`RunCommand` succeeds with a nil error, but `RunCommandWithExitCode` — whose
inner `RunCommand` call has already stripped the only sentinel — fails with
its "can not parse exit code" error, so it does not return the same error as
`RunCommand` for that command and argument list. -/
theorem runCommandWithExitCode_not_same_error_cex :
    (Device.RunCommand (strL "cmd") [] (strL "output:0")).2 = none
    ∧ (Device.RunCommandWithExitCode (strL "cmd") [] (strL "output:0")).2.2 =
        some (.genericError (strL "adb shell aborted, can not parse exit code")) := by
  exact ⟨by decide, by decide⟩

/-- C8 (amended): `RunCommandWithExitCode` applies the `RunCommand` pipeline
with a second copy of the sentinel appended, then re-extracts the exit code
from the already stripped output.  On the stream shape the doubled sentinel
actually produces — command output, `:<code>`, CRLF, then the second echo's
`:0` and CRLF — it returns the same output text and the same error that
`RunCommand` returns on the corresponding single-sentinel stream, together
with the parsed exit code as the explicit third result (the body must be free
of consecutive carriage returns, since the second pass normalizes CRLF
again). -/
theorem runCommandWithExitCode_spec_amended (cmd : Str) (args : List Str) (body ds : Str)
    (hc : isBlank cmd = false) (ha : ∀ a ∈ args, dquote ∉ a)
    (hne : ds ≠ []) (hd : ds.all isDigitChar = true) (hcr : noCRCR body = true) :
    Device.RunCommandWithExitCode cmd args (body ++ ':' :: (ds ++ strL "\r\n:0\r\n")) =
      ((Device.RunCommand cmd args (body ++ ':' :: (ds ++ strL "\r\n"))).1,
        (digitsToNat ds : Int),
        (Device.RunCommand cmd args (body ++ ':' :: (ds ++ strL "\r\n"))).2) := by
  have ha2 : ∀ a ∈ args ++ exitSentinelArgs, dquote ∉ a := by
    intro a hmem
    rcases List.mem_append.1 hmem with h | h
    · exact ha a h
    · simp only [exitSentinelArgs, List.mem_cons, List.not_mem_nil, or_false] at h
      rcases h with rfl | rfl | rfl <;> decide
  have hcolon1 : ':' ∉ ds ++ strL "\r\n" := by
    intro hm
    rcases List.mem_append.1 hm with h | h
    · exact colon_not_mem_digits ds hd h
    · revert h
      decide
  have hsplitS : splitAtLastColon (body ++ ':' :: (ds ++ strL "\r\n")) =
      some (body, ds ++ strL "\r\n") :=
    splitAtLastColon_append body _ hcolon1
  have htrimS : trimSpace (ds ++ strL "\r\n") = ds :=
    trimSpace_digits_append ds _ hne hd (by decide)
  have hS := runCommand_eq_some cmd args (body ++ ':' :: (ds ++ strL "\r\n"))
    body (ds ++ strL "\r\n") hc ha hsplitS
  rw [htrimS, atoiOrZero_digits ds hne hd] at hS
  have hrearr : body ++ ':' :: (ds ++ strL "\r\n:0\r\n") =
      (body ++ ':' :: (ds ++ strL "\r\n")) ++ ':' :: strL "0\r\n" := by
    rw [show strL "\r\n:0\r\n" = strL "\r\n" ++ ':' :: strL "0\r\n" by decide]
    simp [List.append_assoc]
  have hsplitD : splitAtLastColon (body ++ ':' :: (ds ++ strL "\r\n:0\r\n")) =
      some (body ++ ':' :: (ds ++ strL "\r\n"), strL "0\r\n") := by
    rw [hrearr]
    exact splitAtLastColon_append _ _ (by decide)
  have hInner := runCommand_eq_some cmd (args ++ exitSentinelArgs)
    (body ++ ':' :: (ds ++ strL "\r\n:0\r\n")) _ _ hc ha2 hsplitD
  rw [show atoiOrZero (trimSpace (strL "0\r\n")) = 0 by decide] at hInner
  simp only [ne_eq, not_true_eq_false, if_false] at hInner
  have hX : replaceCRLF (body ++ ':' :: (ds ++ strL "\r\n")) =
      replaceCRLF body ++ ':' :: (ds ++ strL "\n") := by
    rw [replaceCRLF_append body ':' (ds ++ strL "\r\n") (by decide),
      replaceCRLF_cons_ne_cr ':' _ (by decide), replaceCRLF_digits_crlf ds hd]
  rw [hX] at hInner
  have hcolon2 : ':' ∉ ds ++ strL "\n" := by
    intro hm
    rcases List.mem_append.1 hm with h | h
    · exact colon_not_mem_digits ds hd h
    · revert h
      decide
  have hsplit2 : splitAtLastColon (replaceCRLF body ++ ':' :: (ds ++ strL "\n")) =
      some (replaceCRLF body, ds ++ strL "\n") :=
    splitAtLastColon_append _ _ hcolon2
  have htrim2 : trimSpace (ds ++ strL "\n") = ds :=
    trimSpace_digits_append ds _ hne hd (by decide)
  simp only [Device.RunCommandWithExitCode, hInner, hsplit2, htrim2,
    atoiOrZero_digits ds hne hd, replaceCRLF_idem body hcr, hS]

/-- C8 witness: the doubled-sentinel stream `"output:1\r\n:0\r\n"` yields the
output `"output"`, the explicit exit code 1 and the same `ShellExitError`
that `RunCommand` produces on `"output:1\r\n"`. -/
theorem runCommandWithExitCode_spec_amended_witness :
    Device.RunCommandWithExitCode (strL "cmd") [] (strL "output:1\r\n:0\r\n") =
      (strL "output", 1, some (.shellExit [] 1)) := by
  have h := runCommandWithExitCode_spec_amended (strL "cmd") [] (strL "output") (strL "1")
    (by decide) (by decide) (by decide) (by decide) (by decide)
  have e : strL "output" ++ ':' :: (strL "1" ++ strL "\r\n:0\r\n") =
      strL "output:1\r\n:0\r\n" := by decide
  rw [e] at h
  exact h.trans (by decide)

/-- C9: `Properties` extracts every `[key]: [value]` pair from the getprop
output; on `"[wifi.interface]: [wlan0]\r\n[wlan.driver.ath]: [0]\r\n"` it
returns exactly the two-entry mapping
`{wifi.interface: wlan0, wlan.driver.ath: 0}`. -/
theorem properties_getprop_example :
    Device.Properties (strL "[wifi.interface]: [wlan0]\r\n[wlan.driver.ath]: [0]\r\n") =
      [(strL "wifi.interface", strL "wlan0"), (strL "wlan.driver.ath", strL "0")] := by
  decide
